import Mathlib

/-!
Verification model of the adaptive-learn backend core
(`backend/app/services/faiss_service.py`, `backend/app/database.py`,
`backend/app/services/realtime_service.py`,
`backend/app/services/adaptive_boss_service.py`,
`backend/app/services/jigsawstack_service.py`).

Conventions of the shallow embedding:

* Python floats are modelled as exact rationals (`ℚ`).  FAISS stores
  L2-normalized copies of the inserted vectors and ranks by inner product;
  since the normalized entries have irrational coordinates in general, the
  model keeps the raw rational vector and represents the inner product of
  the two normalized vectors *exactly* by a `SimKey`: the pair
  `(dot v q, sumsq v * sumsq q)` denoting the real number
  `dot v q / sqrt (sumsq v * sumsq q)`.  This is the cosine similarity the
  code computes, and comparisons between two such scores are decidable by
  rational arithmetic alone (`simGe`).
* Python dicts are association lists with unique keys (`lookupA`,
  `insertA`, `eraseA` mirror `d[k]`, `d[k] = v`, `d.pop(k)`); Python sets
  of strings are duplicate-free lists (`addSet`, `List.erase`).
* Fallible calls return `Except`/`Option`, or pair the unchanged state
  with an error value where the caller keeps the state on an exception.
-/

attribute [local semireducible] Rat.add Rat.mul Rat.sub Rat.inv Rat.ofScientific

namespace AdaptiveLearn

/-! ### Exact similarity scores -/

/-- Inner product of two rational vectors (`np.dot` on equal-length
float arrays; extra coordinates of a longer vector are ignored, as the
model is only ever applied to equal-length vectors). -/
def dotQ (u v : List ℚ) : ℚ := (List.zipWith (fun a b => a * b) u v).sum

/-- Squared L2 norm of a vector. -/
def sumsq (v : List ℚ) : ℚ := dotQ v v

/-- Exact representation of a FAISS similarity score: `num / sqrt den`.
For a stored vector `v` and query `q` the code's score
(inner product of the L2-normalized vectors) is represented by
`num = dotQ v q` and `den = sumsq v * sumsq q`. -/
structure SimKey where
  num : ℚ
  den : ℚ
deriving DecidableEq

/-- Canonical form: a degenerate denominator (zero vector involved, where
`faiss.normalize_L2` leaves the zero vector unchanged and the score is 0)
is represented by `0 / sqrt 1`. -/
def SimKey.canon (k : SimKey) : SimKey := if k.den ≤ 0 then ⟨0, 1⟩ else k

/-- Decide `a / sqrt x ≥ b / sqrt y` for positive `x`, `y` by sign
analysis and cross-multiplied squares. -/
def rawGe (a x b y : ℚ) : Bool :=
  if 0 ≤ a then
    if 0 ≤ b then decide (b ^ 2 * x ≤ a ^ 2 * y)
    else true
  else
    if 0 ≤ b then false
    else decide (a ^ 2 * y ≤ b ^ 2 * x)

/-- Score comparison: the score denoted by `k` is ≥ the score denoted
by `l`. -/
def simGe (k l : SimKey) : Bool := rawGe k.canon.num k.canon.den l.canon.num l.canon.den

theorem canon_den_pos (k : SimKey) : 0 < k.canon.den := by
  unfold SimKey.canon
  split
  · norm_num
  · linarith [not_le.mp (by assumption : ¬ k.den ≤ 0)]

theorem rawGe_total (a x b y : ℚ) : rawGe a x b y = true ∨ rawGe b y a x = true := by
  unfold rawGe
  rcases le_or_lt 0 a with ha | ha <;> rcases le_or_lt 0 b with hb | hb
  · rw [if_pos ha, if_pos hb, if_pos hb, if_pos ha, decide_eq_true_eq, decide_eq_true_eq]
    exact le_total _ _
  · left
    rw [if_pos ha, if_neg (not_le.mpr hb)]
  · right
    rw [if_pos hb, if_neg (not_le.mpr ha)]
  · rw [if_neg (not_le.mpr ha), if_neg (not_le.mpr hb), if_neg (not_le.mpr hb),
      if_neg (not_le.mpr ha), decide_eq_true_eq, decide_eq_true_eq]
    exact le_total _ _

theorem simGe_total (k l : SimKey) : simGe k l = true ∨ simGe l k = true :=
  rawGe_total _ _ _ _

theorem rawGe_trans (a x b y c z : ℚ) (hx : 0 < x) (hy : 0 < y) (hz : 0 < z)
    (h1 : rawGe a x b y = true) (h2 : rawGe b y c z = true) : rawGe a x c z = true := by
  unfold rawGe at h1 h2 ⊢
  rcases le_or_lt 0 a with ha | ha <;> rcases le_or_lt 0 b with hb | hb <;>
      rcases le_or_lt 0 c with hc | hc
  · -- all three scores nonnegative
    rw [if_pos ha, if_pos hb, decide_eq_true_eq] at h1
    rw [if_pos hb, if_pos hc, decide_eq_true_eq] at h2
    rw [if_pos ha, if_pos hc, decide_eq_true_eq]
    have key : c ^ 2 * x * y ≤ a ^ 2 * z * y := by
      nlinarith [mul_le_mul_of_nonneg_right h1 hz.le, mul_le_mul_of_nonneg_right h2 hx.le]
    exact le_of_mul_le_mul_right key hy
  · -- a, b nonnegative, c negative: goal holds outright
    rw [if_pos ha, if_neg (not_le.mpr hc)]
  · -- b negative, c nonnegative: h2 is impossible
    rw [if_neg (not_le.mpr hb), if_pos hc] at h2
    exact absurd h2 (by simp)
  · rw [if_pos ha, if_neg (not_le.mpr hc)]
  · -- a negative, b nonnegative: h1 is impossible
    rw [if_neg (not_le.mpr ha), if_pos hb] at h1
    exact absurd h1 (by simp)
  · rw [if_neg (not_le.mpr ha), if_pos hb] at h1
    exact absurd h1 (by simp)
  · rw [if_neg (not_le.mpr hb), if_pos hc] at h2
    exact absurd h2 (by simp)
  · -- all three scores negative
    rw [if_neg (not_le.mpr ha), if_neg (not_le.mpr hb), decide_eq_true_eq] at h1
    rw [if_neg (not_le.mpr hb), if_neg (not_le.mpr hc), decide_eq_true_eq] at h2
    rw [if_neg (not_le.mpr ha), if_neg (not_le.mpr hc), decide_eq_true_eq]
    have key : a ^ 2 * z * y ≤ c ^ 2 * x * y := by
      nlinarith [mul_le_mul_of_nonneg_right h1 hz.le, mul_le_mul_of_nonneg_right h2 hx.le]
    exact le_of_mul_le_mul_right key hy

theorem simGe_trans {k l m : SimKey} (h1 : simGe k l = true) (h2 : simGe l m = true) :
    simGe k m = true :=
  rawGe_trans _ _ _ _ _ _ (canon_den_pos k) (canon_den_pos l) (canon_den_pos m) h1 h2

/-! ### FAISS vector store (`faiss_service.py`)

The store keeps, per game, a FAISS index of L2-normalized vectors and a
parallel metadata list whose positions coincide with index positions
(`index_position` is maintained by the code to record exactly this).  The
model glues the two into one list of `(vector, metadata)` pairs in
insertion order; `entryCount` is the service's `entry_counts[game_id]`
counter used for the auto-optimize trigger.  `P` is the opaque payload
type of `context_data`. -/

/-- Metadata entry stored alongside each indexed vector
(the dict built in `add_context`). -/
structure MetaEntry (P : Type) where
  contextId : Nat
  contextData : P
  eff : ℚ
  indexPosition : Nat
  quality : ℚ
deriving DecidableEq

/-- Per-game FAISS store (index + metadata + insert counter). -/
structure Store (P : Type) where
  dim : Nat
  entries : List (List ℚ × MetaEntry P)
  entryCount : Nat
deriving DecidableEq

/-- Similarity key of stored vector `v` against query `q`: the exact value
of the inner product of the two L2-normalized vectors, as computed by the
code, which equals `dotQ v q / sqrt (sumsq v * sumsq q)` (and 0 when
either vector is zero, matching the `normalize_L2` guard). -/
def simKeyOf (v q : List ℚ) : SimKey := SimKey.canon ⟨dotQ v q, sumsq v * sumsq q⟩

/-- One ranked search candidate: an index position with its score. -/
structure Cand where
  pos : Nat
  key : SimKey
deriving DecidableEq

/-- Ranking order of the flat inner-product index: strictly larger score
first; equal scores in descending index order — the CMin result heap of
the flat index, once reordered, emits exact ties later-id-first (the
later-inserted entry before the earlier one). -/
def candLE (c d : Cand) : Prop :=
  simGe c.key d.key = true ∧ (simGe d.key c.key = true → d.pos ≤ c.pos)

instance : DecidableRel candLE := fun c d => by
  unfold candLE
  infer_instance

instance : IsTotal Cand candLE := by
  constructor
  intro c d
  rcases simGe_total c.key d.key with h | h
  · by_cases h' : simGe d.key c.key = true
    · rcases Nat.le_total d.pos c.pos with hp | hp
      · exact Or.inl ⟨h, fun _ => hp⟩
      · exact Or.inr ⟨h', fun _ => hp⟩
    · exact Or.inl ⟨h, fun hdc => absurd hdc h'⟩
  · by_cases h' : simGe c.key d.key = true
    · rcases Nat.le_total d.pos c.pos with hp | hp
      · exact Or.inl ⟨h', fun _ => hp⟩
      · exact Or.inr ⟨h, fun _ => hp⟩
    · exact Or.inr ⟨h, fun hcd => absurd hcd h'⟩

instance : IsTrans Cand candLE := by
  constructor
  intro c d e hcd hde
  refine ⟨simGe_trans hcd.1 hde.1, fun hec => ?_⟩
  have hdc : simGe d.key c.key = true := simGe_trans hde.1 hec
  have hed : simGe e.key d.key = true := simGe_trans hec hcd.1
  exact le_trans (hde.2 hed) (hcd.2 hdc)

/-- Scored candidates of all stored entries, in insertion order
(position `i` scored against the query). -/
def candsOf {P : Type} (ents : List (List ℚ × MetaEntry P)) (q : List ℚ) : List Cand :=
  ents.enum.map (fun p => ⟨p.1, simKeyOf p.2.1 q⟩)

/-- Result of `index.search`: all candidates ranked by descending score
(exact ties in descending index order, as the reordered result heap
emits them). -/
def rankedCands {P : Type} (ents : List (List ℚ × MetaEntry P)) (q : List ℚ) : List Cand :=
  List.insertionSort candLE (candsOf ents q)

/-- One element of the list returned by `search_similar_contexts`. -/
structure SearchResult (P : Type) where
  contextId : Nat
  contextData : P
  eff : ℚ
  sim : SimKey
  quality : ℚ
  rank : Nat
deriving DecidableEq

/-- Filtering loop of `search_similar_contexts`: walk the ranked
candidates, skip positions outside the metadata list (the code's
out-of-range guard), keep entries with `effectiveness_score ≥
min_effectiveness`, and stop as soon as `k` results are collected (the
`len(results) >= k` break happens after appending).  `cnt` is the number
of results collected so far; each emitted pair carries the candidate's
index position alongside the result dict. -/
def collectGo {P : Type} (ents : List (List ℚ × MetaEntry P)) (minEff : ℚ) (k : Nat) :
    List Cand → Nat → List (Nat × SearchResult P)
  | [], _ => []
  | c :: cs, cnt =>
    match ents.get? c.pos with
    | none => collectGo ents minEff k cs cnt
    | some e =>
      if minEff ≤ e.2.eff then
        let r : SearchResult P :=
          ⟨e.2.contextId, e.2.contextData, e.2.eff, c.key, e.2.quality, cnt + 1⟩
        if k ≤ cnt + 1 then [(c.pos, r)]
        else (c.pos, r) :: collectGo ents minEff k cs (cnt + 1)
      else collectGo ents minEff k cs cnt

/-- Search pipeline with index positions retained: empty-index early
return, overfetch `search_k = min(k * 3, ntotal)`, then the filtering
loop over the ranked candidates. -/
def searchWithPos {P : Type} (st : Store P) (q : List ℚ) (k : Nat) (minEff : ℚ) :
    List (Nat × SearchResult P) :=
  if st.entries.length = 0 then []
  else
    collectGo st.entries minEff k
      ((rankedCands st.entries q).take (min (k * 3) st.entries.length)) 0

/-- Model of `search_similar_contexts` (the returned dicts do not expose
the index position). -/
def searchSimilarContexts {P : Type} (st : Store P) (q : List ℚ) (k : Nat) (minEff : ℚ) :
    List (SearchResult P) :=
  (searchWithPos st q k minEff).map Prod.snd

/-- Error raised out of `add_context` when the vector length differs from
the index dimension (the FAISS `add` dimension assertion, re-raised by
the service). -/
inductive FaissError
  | dimensionMismatch
deriving DecidableEq

/-- Model of `_calculate_embedding_quality`: zero vector gives 0;
otherwise `min(np.var(normalized) * 10, 1) * (1 - sparsity)` where
`sparsity` counts coordinates of the normalized vector below `1e-6` in
absolute value.  Over the normalized vector the variance equals
`1/d - (sum v)^2 / (d^2 * sumsq v)` exactly, and
`|v_i| / sqrt (sumsq v) < 1e-6` iff `v_i^2 * 10^12 < sumsq v`. -/
def qualityOf (v : List ℚ) : ℚ :=
  if sumsq v = 0 then 0
  else
    let d : ℚ := (v.length : ℚ)
    let variance : ℚ := 1 / d - v.sum ^ 2 / (d ^ 2 * sumsq v)
    let sparsity : ℚ := ((v.filter (fun x => x ^ 2 * 10 ^ 12 < sumsq v)).length : ℚ) / d
    min (variance * 10) 1 * (1 - sparsity)

/-- Outcome of `add_context`: the store afterwards, the error if any, and
whether this insert scheduled the fire-and-forget auto-optimize task
(`entry_counts % auto_optimize_threshold == 0`, threshold 100). -/
structure AddResult (P : Type) where
  store : Store P
  err : Option FaissError
  optimizeScheduled : Bool
deriving DecidableEq

/-- Model of `add_context`: normalize (kept implicit — scoring normalizes,
see `simKeyOf`), append to the index and the metadata list with
`index_position = ntotal - 1`, bump the insert counter; the FAISS `add`
raises on a dimension mismatch before any state is touched. -/
def addContext {P : Type} (st : Store P) (ctxId : Nat) (emb : List ℚ) (cdata : P)
    (eff : ℚ) : AddResult P :=
  if emb.length ≠ st.dim then ⟨st, some .dimensionMismatch, false⟩
  else
    ⟨{ st with
        entries := st.entries ++ [(emb, ⟨ctxId, cdata, eff, st.entries.length, qualityOf emb⟩)],
        entryCount := st.entryCount + 1 },
      none, (st.entryCount + 1) % 100 = 0⟩

/-- Model of `update_effectiveness_score`: in-place update of the first
metadata entry with the given `context_id`; silent no-op when absent. -/
def updateFirst {P : Type} : List (List ℚ × MetaEntry P) → Nat → ℚ →
    List (List ℚ × MetaEntry P)
  | [], _, _ => []
  | (v, m) :: rest, cid, s =>
    if m.contextId = cid then (v, { m with eff := s }) :: rest
    else (v, m) :: updateFirst rest cid s

/-- Service entry point for the in-place score update. -/
def updateEffectivenessScore {P : Type} (st : Store P) (cid : Nat) (newScore : ℚ) :
    Store P :=
  { st with entries := updateFirst st.entries cid newScore }

/-- Outcome of `remove_ineffective_contexts`: resulting store, removed
count, and whether the index was actually rebuilt (the code returns 0
without rebuilding when nothing falls below the threshold). -/
structure RemoveResult (P : Type) where
  store : Store P
  removed : Nat
  rebuilt : Bool
deriving DecidableEq

/-- Re-number `index_position` after a rebuild (the `reconstruct`/`add`
loop copies each kept entry and records its new position). -/
def reindexMeta {P : Type} : Nat → List (List ℚ × MetaEntry P) → List (List ℚ × MetaEntry P)
  | _, [] => []
  | i, (v, m) :: rest => (v, { m with indexPosition := i }) :: reindexMeta (i + 1) rest

/-- Model of `remove_ineffective_contexts` (the `Compact` of the spec):
split entries at the effectiveness threshold; if nothing is below it,
return 0 with no rebuild; otherwise rebuild the index from the kept
entries.  `entry_counts` is not reset by the code. -/
def removeIneffectiveContexts {P : Type} (st : Store P) (minEff : ℚ) : RemoveResult P :=
  if st.entries.length - (st.entries.filter (fun e => minEff ≤ e.2.eff)).length = 0 then
    ⟨st, 0, false⟩
  else
    ⟨{ st with entries := reindexMeta 0 (st.entries.filter (fun e => minEff ≤ e.2.eff)) },
      st.entries.length - (st.entries.filter (fun e => minEff ≤ e.2.eff)).length, true⟩

/-- Model of `_auto_optimize_index`: compaction at threshold 0.2. -/
def autoOptimizeIndex {P : Type} (st : Store P) : RemoveResult P :=
  removeIneffectiveContexts st (1 / 5)

/-- Two `Compact` invocations for the same tenant.  The per-game
`threading.RLock` serializes the two bodies completely, so the concurrent
execution is equivalent to running the function twice in sequence (both
interleaving orders give this same composition); the second invocation is
queued behind the first, not dropped. -/
def compactTwice {P : Type} (st : Store P) (minEff : ℚ) : RemoveResult P × RemoveResult P :=
  let r1 := removeIneffectiveContexts st minEff
  (r1, removeIneffectiveContexts r1.store minEff)

/-! ### Search lemmas -/

theorem collectGo_eff {P : Type} (ents : List (List ℚ × MetaEntry P)) (minEff : ℚ) (k : Nat) :
    ∀ (cands : List Cand) (cnt : Nat) (pr : Nat × SearchResult P),
      pr ∈ collectGo ents minEff k cands cnt → minEff ≤ pr.2.eff := by
  intro cands
  induction cands with
  | nil => intro cnt pr h; exact absurd h (by simp [collectGo])
  | cons c cs ih =>
    intro cnt pr h
    rw [collectGo] at h
    cases hget : ents.get? c.pos with
    | none =>
      rw [hget] at h
      exact ih _ _ h
    | some e =>
      rw [hget] at h
      simp only at h
      by_cases heff : minEff ≤ e.2.eff
      · rw [if_pos heff] at h
        by_cases hk : k ≤ cnt + 1
        · rw [if_pos hk] at h
          rcases List.mem_singleton.mp h with h
          subst h
          exact heff
        · rw [if_neg hk] at h
          rcases List.mem_cons.mp h with h | h
          · subst h
            exact heff
          · exact ih _ _ h
      · rw [if_neg heff] at h
        exact ih _ _ h

theorem collectGo_length {P : Type} (ents : List (List ℚ × MetaEntry P)) (minEff : ℚ)
    (k : Nat) :
    ∀ (cands : List Cand) (cnt : Nat), cnt < k →
      (collectGo ents minEff k cands cnt).length ≤ k - cnt := by
  intro cands
  induction cands with
  | nil => intro cnt h; simp [collectGo]
  | cons c cs ih =>
    intro cnt hcnt
    rw [collectGo]
    cases hget : ents.get? c.pos with
    | none => exact ih cnt hcnt
    | some e =>
      simp only
      by_cases heff : minEff ≤ e.2.eff
      · rw [if_pos heff]
        by_cases hk : k ≤ cnt + 1
        · rw [if_pos hk]
          simp only [List.length_singleton]
          omega
        · rw [if_neg hk]
          have := ih (cnt + 1) (by omega)
          simp only [List.length_cons]
          omega
      · rw [if_neg heff]
        exact ih cnt hcnt

theorem collectGo_mem_src {P : Type} (ents : List (List ℚ × MetaEntry P)) (minEff : ℚ)
    (k : Nat) :
    ∀ (cands : List Cand) (cnt : Nat) (pr : Nat × SearchResult P),
      pr ∈ collectGo ents minEff k cands cnt →
        ∃ c ∈ cands, pr.1 = c.pos ∧ pr.2.sim = c.key := by
  intro cands
  induction cands with
  | nil => intro cnt pr h; exact absurd h (by simp [collectGo])
  | cons c cs ih =>
    intro cnt pr h
    rw [collectGo] at h
    cases hget : ents.get? c.pos with
    | none =>
      rw [hget] at h
      rcases ih _ _ h with ⟨c', hc', hfst, hsim⟩
      exact ⟨c', List.mem_cons_of_mem _ hc', hfst, hsim⟩
    | some e =>
      rw [hget] at h
      simp only at h
      by_cases heff : minEff ≤ e.2.eff
      · rw [if_pos heff] at h
        by_cases hk : k ≤ cnt + 1
        · rw [if_pos hk] at h
          rcases List.mem_singleton.mp h with h
          subst h
          exact ⟨c, List.mem_cons_self _ _, rfl, rfl⟩
        · rw [if_neg hk] at h
          rcases List.mem_cons.mp h with h | h
          · subst h
            exact ⟨c, List.mem_cons_self _ _, rfl, rfl⟩
          · rcases ih _ _ h with ⟨c', hc', hfst, hsim⟩
            exact ⟨c', List.mem_cons_of_mem _ hc', hfst, hsim⟩
      · rw [if_neg heff] at h
        rcases ih _ _ h with ⟨c', hc', hfst, hsim⟩
        exact ⟨c', List.mem_cons_of_mem _ hc', hfst, hsim⟩

/-- Order on emitted `(position, result)` pairs: descending similarity,
exact ties in descending index position (later-inserted first). -/
def outRel {P : Type} (a b : Nat × SearchResult P) : Prop :=
  simGe a.2.sim b.2.sim = true ∧ (simGe b.2.sim a.2.sim = true → b.1 ≤ a.1)

theorem collectGo_pairwise {P : Type} (ents : List (List ℚ × MetaEntry P)) (minEff : ℚ)
    (k : Nat) :
    ∀ (cands : List Cand) (cnt : Nat), cands.Pairwise candLE →
      (collectGo ents minEff k cands cnt).Pairwise outRel := by
  intro cands
  induction cands with
  | nil => intro cnt _; simp [collectGo]
  | cons c cs ih =>
    intro cnt hp
    rcases List.pairwise_cons.mp hp with ⟨hhead, htail⟩
    rw [collectGo]
    cases hget : ents.get? c.pos with
    | none => exact ih cnt htail
    | some e =>
      simp only
      by_cases heff : minEff ≤ e.2.eff
      · rw [if_pos heff]
        by_cases hk : k ≤ cnt + 1
        · rw [if_pos hk]
          exact List.pairwise_singleton _ _
        · rw [if_neg hk]
          refine List.pairwise_cons.mpr ⟨?_, ih (cnt + 1) htail⟩
          intro pr hpr
          rcases collectGo_mem_src ents minEff k cs (cnt + 1) pr hpr with ⟨c', hc', hfst, hsim⟩
          have hle : candLE c c' := hhead c' hc'
          exact ⟨by rw [hsim]; exact hle.1, fun hback => by rw [hfst]; exact hle.2 (by rwa [hsim] at hback)⟩
      · rw [if_neg heff]
        exact ih cnt htail

/-! ### Claim C2 -/

/-- C2 (confirmed): every result returned by `search_similar_contexts`
satisfies `minEffectiveness ≤ effectivenessScore`; at most `k` results are
returned; and the ranked candidate list is overfetched at `k * 3`
candidates, capped at the store size, before the filtering loop runs. -/
theorem search_filter_and_overfetch {P : Type} (st : Store P) (q : List ℚ) (k : Nat)
    (minEff : ℚ) :
    (∀ r ∈ searchSimilarContexts st q k minEff, minEff ≤ r.eff) ∧
    (searchSimilarContexts st q k minEff).length ≤ k ∧
    ((rankedCands st.entries q).take (min (k * 3) st.entries.length)).length
      = min (k * 3) st.entries.length := by
  have hlen : (rankedCands st.entries q).length = st.entries.length := by
    rw [rankedCands, (List.perm_insertionSort candLE (candsOf st.entries q)).length_eq,
      candsOf, List.length_map, List.enum_length]
  refine ⟨?_, ?_, ?_⟩
  · intro r hr
    rcases List.mem_map.mp hr with ⟨pr, hpr, hsnd⟩
    rw [searchWithPos] at hpr
    by_cases hempty : st.entries.length = 0
    · rw [if_pos hempty] at hpr
      exact absurd hpr (List.not_mem_nil _)
    · rw [if_neg hempty] at hpr
      have := collectGo_eff st.entries minEff k _ 0 pr hpr
      rw [hsnd] at this
      exact this
  · rw [searchSimilarContexts, List.length_map, searchWithPos]
    by_cases hempty : st.entries.length = 0
    · rw [if_pos hempty]
      simp
    · rw [if_neg hempty]
      rcases Nat.eq_zero_or_pos k with hk | hk
      · subst hk
        simp [collectGo]
      · have := collectGo_length st.entries minEff k
          ((rankedCands st.entries q).take (min (k * 3) st.entries.length)) 0 hk
        omega
  · rw [List.length_take, hlen]
    omega

/-- Witness for C2 at a concrete store: the spec's contrived example with
effectiveness scores 1/10, 1/2, 9/10 and threshold 2/5. -/
theorem search_filter_and_overfetch_witness :
    ∀ r ∈ searchSimilarContexts
        (⟨2, [([1, 0], ⟨1, (), 1/10, 0, qualityOf [1, 0]⟩),
             ([0, 1], ⟨2, (), 1/2, 1, qualityOf [0, 1]⟩),
             ([1, 1], ⟨3, (), 9/10, 2, qualityOf [1, 1]⟩)], 3⟩ : Store Unit)
        [1, 0] 3 (2/5), (2/5 : ℚ) ≤ r.eff := by
  intro r hr
  exact (search_filter_and_overfetch _ [1, 0] 3 (2/5)).1 r hr

/-! ### Claim C3 -/

/-- Ordering the claim asserts on the search output: descending
similarity with ties broken by higher effectiveness first (the claim's
further insertion-order tie-break applies only between results of equal
effectiveness, so every list ordered as the claim asserts satisfies this
predicate). -/
@[reducible]
def specTieOrder {P : Type} (l : List (SearchResult P)) : Prop :=
  l.Pairwise (fun r s =>
    (simGe r.sim s.sim = true ∧ ¬ simGe s.sim r.sim = true) ∨
    (simGe r.sim s.sim = true ∧ simGe s.sim r.sim = true ∧ s.eff ≤ r.eff))

/-- Store for the C3 counterexample: two entries with identical vectors,
the earlier-inserted one carrying the *higher* effectiveness score, built
by two `add_context` calls. -/
def c3Store : Store Unit :=
  (addContext (addContext (⟨2, [], 0⟩ : Store Unit) 1 [1, 0] () (9/10)).store
    2 [1, 0] () (1/5)).store

/-- C3 counterexample: searching `c3Store` with the shared vector returns
the two equal-similarity results later-inserted-first — the
lower-effectiveness entry before the higher-effectiveness one —
violating the claimed higher-effectiveness-first tie-break. -/
theorem search_tie_order_counterexample :
    ¬ specTieOrder (searchSimilarContexts c3Store [1, 0] 2 0) := by
  decide

/-- C3 (corrected): the search output is sorted in descending order of
similarity score, and (tracking index positions through the pipeline)
results of exactly equal similarity appear in descending insertion
position — the tie order the flat index's reordered result heap
produces; the effectiveness score plays no role in the ordering, because
the FAISS index ranks on vectors alone.  (Stated for the flat
inner-product branch the service builds for dimensions ≤ 512; the
dimension-1536 default selects an approximate HNSW/L2 index, whose score
semantics diverge from the claim even before tie order.) -/
theorem search_sorted_by_similarity {P : Type} (st : Store P) (q : List ℚ) (k : Nat)
    (minEff : ℚ) :
    (searchSimilarContexts st q k minEff).Pairwise
      (fun r s => simGe r.sim s.sim = true) ∧
    (searchWithPos st q k minEff).Pairwise outRel := by
  have hpair : (searchWithPos st q k minEff).Pairwise outRel := by
    rw [searchWithPos]
    by_cases hempty : st.entries.length = 0
    · rw [if_pos hempty]
      exact List.Pairwise.nil
    · rw [if_neg hempty]
      refine collectGo_pairwise st.entries minEff k _ 0 ?_
      exact List.Pairwise.sublist (List.take_sublist _ _)
        (List.sorted_insertionSort candLE (candsOf st.entries q))
  refine ⟨?_, hpair⟩
  rw [searchSimilarContexts]
  exact List.Pairwise.map _ (fun a b h => h.1) hpair

/-- Witness for C3 at the counterexample store: both returned results tie
in similarity, so the pairwise order reduces to their index positions. -/
theorem search_sorted_by_similarity_witness :
    (searchSimilarContexts c3Store [1, 0] 2 0).Pairwise
      (fun r s => simGe r.sim s.sim = true) := by
  exact (search_sorted_by_similarity c3Store [1, 0] 2 0).1

/-! ### Claim C4 -/

theorem sumsq_nonneg (v : List ℚ) : 0 ≤ sumsq v := by
  induction v with
  | nil => simp [sumsq, dotQ]
  | cons a l ih =>
    have : sumsq (a :: l) = a * a + sumsq l := by
      simp [sumsq, dotQ]
    rw [this]
    nlinarith [mul_self_nonneg a]

/-- C4 (confirmed): `add_context` with a vector of the wrong length fails
with the dimension-mismatch error and leaves the store unchanged; with
the right length it appends the vector with its metadata, and the stored
vector scores as a unit vector (its self-similarity is exactly 1 —
the content of L2 normalization) whenever the vector is nonzero. -/
theorem addContext_dimension_check {P : Type} (st : Store P) (cid : Nat) (emb : List ℚ)
    (cdata : P) (eff : ℚ) :
    (emb.length ≠ st.dim →
      addContext st cid emb cdata eff = ⟨st, some .dimensionMismatch, false⟩) ∧
    (emb.length = st.dim →
      (addContext st cid emb cdata eff).err = none ∧
      (addContext st cid emb cdata eff).store.entries
        = st.entries ++ [(emb, ⟨cid, cdata, eff, st.entries.length, qualityOf emb⟩)]) ∧
    (sumsq emb ≠ 0 →
      simGe (simKeyOf emb emb) ⟨1, 1⟩ = true ∧ simGe ⟨1, 1⟩ (simKeyOf emb emb) = true) := by
  refine ⟨?_, ?_, ?_⟩
  · intro hne
    rw [addContext, if_pos hne]
  · intro heq
    rw [addContext, if_neg (by simp [heq])]
    exact ⟨rfl, rfl⟩
  · intro hnz
    have hpos : 0 < sumsq emb := lt_of_le_of_ne (sumsq_nonneg emb) (Ne.symm hnz)
    have hdd : dotQ emb emb = sumsq emb := rfl
    have hden : ¬ (sumsq emb * sumsq emb ≤ 0) := not_le.mpr (by positivity)
    have h1 : simKeyOf emb emb = ⟨sumsq emb, sumsq emb * sumsq emb⟩ := by
      simp only [simKeyOf, hdd, SimKey.canon]
      rw [if_neg hden]
    have hcanon : (⟨sumsq emb, sumsq emb * sumsq emb⟩ : SimKey).canon
        = ⟨sumsq emb, sumsq emb * sumsq emb⟩ := by
      simp only [SimKey.canon]
      rw [if_neg hden]
    have hone : (⟨1, 1⟩ : SimKey).canon = ⟨1, 1⟩ := by
      simp only [SimKey.canon]
      rw [if_neg (by norm_num)]
    constructor
    · rw [simGe, h1, hcanon, hone]
      show rawGe (sumsq emb) (sumsq emb * sumsq emb) 1 1 = true
      rw [rawGe, if_pos (sumsq_nonneg emb), if_pos (by norm_num : (0:ℚ) ≤ 1),
        decide_eq_true_eq]
      exact le_of_eq (by ring)
    · rw [simGe, h1, hcanon, hone]
      show rawGe 1 1 (sumsq emb) (sumsq emb * sumsq emb) = true
      rw [rawGe, if_pos (by norm_num : (0:ℚ) ≤ 1), if_pos (sumsq_nonneg emb),
        decide_eq_true_eq]
      exact le_of_eq (by ring)

/-- Witness for C4: a wrong-length insert into an empty two-dimensional
store errors and leaves it unchanged; a right-length insert of `[3, 4]`
succeeds and that vector scores as a unit vector. -/
theorem addContext_dimension_check_witness :
    (addContext (⟨2, [], 0⟩ : Store Unit) 5 [1, 2, 3] () (1/2)
      = ⟨⟨2, [], 0⟩, some .dimensionMismatch, false⟩) ∧
    (addContext (⟨2, [], 0⟩ : Store Unit) 5 [3, 4] () (1/2)).err = none ∧
    simGe (simKeyOf [3, 4] [3, 4]) ⟨1, 1⟩ = true := by
  refine ⟨?_, ?_, ?_⟩
  · exact (addContext_dimension_check (⟨2, [], 0⟩ : Store Unit) 5 [1, 2, 3] () (1/2)).1
      (by decide)
  · exact ((addContext_dimension_check (⟨2, [], 0⟩ : Store Unit) 5 [3, 4] () (1/2)).2.1
      (by decide)).1
  · exact ((addContext_dimension_check (⟨2, [], 0⟩ : Store Unit) 5 [3, 4] () (1/2)).2.2
      (by decide)).1

/-! ### Claim C5 -/

theorem reindexMeta_mem {P : Type} :
    ∀ (i : Nat) (l : List (List ℚ × MetaEntry P)) (e : List ℚ × MetaEntry P),
      e ∈ reindexMeta i l → ∃ e₀ ∈ l, e.2.eff = e₀.2.eff := by
  intro i l
  induction l generalizing i with
  | nil => intro e h; exact absurd h (by simp [reindexMeta])
  | cons hd tl ih =>
    intro e h
    rw [reindexMeta] at h
    rcases List.mem_cons.mp h with h | h
    · subst h
      exact ⟨hd, List.mem_cons_self _ _, rfl⟩
    · rcases ih (i + 1) e h with ⟨e₀, he₀, heff⟩
      exact ⟨e₀, List.mem_cons_of_mem _ he₀, heff⟩

/-- C5 counterexample: with a store whose only entry is effective, two
serialized `Compact` invocations execute zero rebuilds, not exactly one;
the claim that exactly one rebuild executes fails. -/
theorem compact_single_flight_counterexample :
    ¬ ((compactTwice (⟨2, [([1, 0], ⟨1, (), 1/2, 0, 0⟩)], 1⟩ : Store Unit) (1/5)).1.rebuilt.toNat
        + (compactTwice (⟨2, [([1, 0], ⟨1, (), 1/2, 0, 0⟩)], 1⟩ : Store Unit) (1/5)).2.rebuilt.toNat
      = 1) := by
  decide

/-- C5 (corrected): the per-tenant reentrant lock serializes the two
invocations (the second waits; it is not dropped), and the second
invocation — running on the already-compacted store — always removes
nothing, performs no rebuild, and leaves the store unchanged; hence at
most one rebuild executes, and exactly one iff some entry of the original
store falls below the threshold. -/
theorem compact_second_invocation_noop {P : Type} (st : Store P) (minEff : ℚ) :
    (compactTwice st minEff).2 = ⟨(compactTwice st minEff).1.store, 0, false⟩ ∧
    ((compactTwice st minEff).1.rebuilt = true ↔ ∃ e ∈ st.entries, e.2.eff < minEff) := by
  have hfsub := List.filter_sublist (p := fun e => decide (minEff ≤ e.2.eff)) st.entries
  have hflen := hfsub.length_le
  constructor
  · show removeIneffectiveContexts (removeIneffectiveContexts st minEff).store minEff
      = ⟨(removeIneffectiveContexts st minEff).store, 0, false⟩
    by_cases h0 : st.entries.length - (st.entries.filter (fun e => minEff ≤ e.2.eff)).length = 0
    · have hr1 : removeIneffectiveContexts st minEff = ⟨st, 0, false⟩ := by
        rw [removeIneffectiveContexts, if_pos h0]
      rw [hr1]
      show removeIneffectiveContexts st minEff = ⟨st, 0, false⟩
      rw [removeIneffectiveContexts, if_pos h0]
    · have hr1 : removeIneffectiveContexts st minEff
          = ⟨{ st with entries := reindexMeta 0 (st.entries.filter (fun e => minEff ≤ e.2.eff)) },
             st.entries.length - (st.entries.filter (fun e => minEff ≤ e.2.eff)).length,
             true⟩ := by
        rw [removeIneffectiveContexts, if_neg h0]
      have hkeep : ∀ e ∈ reindexMeta 0 (st.entries.filter (fun e => minEff ≤ e.2.eff)),
          minEff ≤ e.2.eff := by
        intro e he
        rcases reindexMeta_mem 0 _ e he with ⟨e₀, he₀, heff⟩
        rw [heff]
        exact of_decide_eq_true (List.mem_filter.mp he₀).2
      have hfil : (reindexMeta 0 (st.entries.filter (fun e => minEff ≤ e.2.eff))).filter
          (fun e => decide (minEff ≤ e.2.eff))
          = reindexMeta 0 (st.entries.filter (fun e => minEff ≤ e.2.eff)) := by
        apply List.filter_eq_self.mpr
        intro a ha
        exact decide_eq_true (hkeep a ha)
      rw [hr1]
      show removeIneffectiveContexts
          { st with entries := reindexMeta 0 (st.entries.filter (fun e => minEff ≤ e.2.eff)) }
          minEff
        = ⟨{ st with entries := reindexMeta 0 (st.entries.filter (fun e => minEff ≤ e.2.eff)) },
           0, false⟩
      rw [removeIneffectiveContexts]
      dsimp only
      rw [hfil, Nat.sub_self, if_pos rfl]
  · show (removeIneffectiveContexts st minEff).rebuilt = true ↔
      ∃ e ∈ st.entries, e.2.eff < minEff
    by_cases h0 : st.entries.length - (st.entries.filter (fun e => minEff ≤ e.2.eff)).length = 0
    · rw [removeIneffectiveContexts, if_pos h0]
      simp only [Bool.false_eq_true, false_iff]
      rintro ⟨e, he, hlt⟩
      have hall : st.entries.filter (fun e => decide (minEff ≤ e.2.eff)) = st.entries :=
        hfsub.eq_of_length (by omega)
      have hmem : e ∈ st.entries.filter (fun e => decide (minEff ≤ e.2.eff)) := by
        rw [hall]
        exact he
      exact absurd (of_decide_eq_true (List.mem_filter.mp hmem).2) (not_le.mpr hlt)
    · rw [removeIneffectiveContexts, if_neg h0]
      simp only [true_iff]
      by_contra hnone
      push_neg at hnone
      have hall : st.entries.filter (fun e => decide (minEff ≤ e.2.eff)) = st.entries := by
        apply List.filter_eq_self.mpr
        intro a ha
        exact decide_eq_true (hnone a ha)
      rw [hall] at h0
      omega

/-! ### Association lists (Python dicts) and string sets -/

/-- Dict lookup `d.get(k)`. -/
def lookupA {α : Type} : List (String × α) → String → Option α
  | [], _ => none
  | (k, v) :: rest, key => if k = key then some v else lookupA rest key

/-- Dict assignment `d[k] = v`: replace in place if the key exists,
append otherwise. -/
def insertA {α : Type} : List (String × α) → String → α → List (String × α)
  | [], key, v => [(key, v)]
  | (k, w) :: rest, key, v =>
    if k = key then (k, v) :: rest else (k, w) :: insertA rest key v

/-- Dict removal `d.pop(k, None)` / `del d[k]`. -/
def eraseA {α : Type} : List (String × α) → String → List (String × α)
  | [], _ => []
  | (k, v) :: rest, key => if k = key then rest else (k, v) :: eraseA rest key

/-- Set insertion `s.add(x)` for a duplicate-free list. -/
def addSet (l : List String) (s : String) : List String :=
  if s ∈ l then l else l ++ [s]

/-- Keys of an association list are pairwise distinct (always true of a
Python dict; needed as an explicit hypothesis on arbitrary model
states). -/
@[reducible]
def keysNodup {α : Type} (l : List (String × α)) : Prop := (l.map Prod.fst).Nodup

theorem lookupA_insertA_self {α : Type} (l : List (String × α)) (k : String) (v : α) :
    lookupA (insertA l k v) k = some v := by
  induction l with
  | nil => simp [insertA, lookupA]
  | cons p rest ih =>
    by_cases hk : p.1 = k
    · rw [insertA]
      rw [if_pos hk, lookupA, if_pos hk]
    · rw [insertA]
      rw [if_neg hk, lookupA, if_neg hk]
      exact ih

theorem lookupA_insertA_ne {α : Type} (l : List (String × α)) (k k' : String) (v : α)
    (h : k ≠ k') : lookupA (insertA l k v) k' = lookupA l k' := by
  induction l with
  | nil => simp [insertA, lookupA, h]
  | cons p rest ih =>
    by_cases hk : p.1 = k
    · rw [insertA]
      rw [if_pos hk, lookupA, lookupA]
      have : ¬ p.1 = k' := by
        rw [hk]
        exact h
      rw [if_neg this, if_neg this]
    · rw [insertA]
      rw [if_neg hk, lookupA, lookupA]
      by_cases hk' : p.1 = k'
      · rw [if_pos hk', if_pos hk']
      · rw [if_neg hk', if_neg hk']
        exact ih

theorem lookupA_eq_none {α : Type} (l : List (String × α)) (k : String)
    (h : k ∉ l.map Prod.fst) : lookupA l k = none := by
  induction l with
  | nil => rfl
  | cons p rest ih =>
    rw [lookupA]
    have hpk : ¬ p.1 = k := fun he => h (by simp [he])
    rw [if_neg hpk]
    exact ih (fun hm => h (List.mem_cons_of_mem _ hm))

theorem mem_eraseA {α : Type} (l : List (String × α)) (k : String) (q : String × α)
    (h : q ∈ eraseA l k) : q ∈ l := by
  induction l with
  | nil => exact absurd h (by simp [eraseA])
  | cons p rest ih =>
    rw [eraseA] at h
    by_cases hp : p.1 = k
    · rw [if_pos hp] at h
      exact List.mem_cons_of_mem _ h
    · rw [if_neg hp] at h
      rcases List.mem_cons.mp h with h | h
      · exact h ▸ List.mem_cons_self _ _
      · exact List.mem_cons_of_mem _ (ih h)

theorem lookupA_eraseA_self {α : Type} (l : List (String × α)) (k : String)
    (h : keysNodup l) : lookupA (eraseA l k) k = none := by
  induction l with
  | nil => rfl
  | cons p rest ih =>
    rcases List.nodup_cons.mp h with ⟨hnot, hrest⟩
    by_cases hk : p.1 = k
    · rw [eraseA, if_pos hk]
      exact lookupA_eq_none rest k (hk ▸ hnot)
    · rw [eraseA, if_neg hk, lookupA, if_neg hk]
      exact ih hrest

theorem lookupA_eraseA_ne {α : Type} (l : List (String × α)) (k k' : String)
    (h : k ≠ k') : lookupA (eraseA l k) k' = lookupA l k' := by
  induction l with
  | nil => simp [eraseA, lookupA]
  | cons p rest ih =>
    by_cases hk : p.1 = k
    · rw [eraseA, if_pos hk, lookupA]
      have : ¬ p.1 = k' := by
        rw [hk]
        exact h
      rw [if_neg this]
    · rw [eraseA, if_neg hk, lookupA, lookupA]
      by_cases hk' : p.1 = k'
      · rw [if_pos hk', if_pos hk']
      · rw [if_neg hk', if_neg hk']
        exact ih

theorem keysNodup_eraseA {α : Type} (l : List (String × α)) (k : String)
    (h : keysNodup l) : keysNodup (eraseA l k) := by
  induction l with
  | nil => exact h
  | cons p rest ih =>
    rcases List.nodup_cons.mp h with ⟨hnot, hrest⟩
    by_cases hk : p.1 = k
    · rw [eraseA, if_pos hk]
      exact hrest
    · rw [eraseA, if_neg hk]
      refine List.nodup_cons.mpr ⟨?_, ih hrest⟩
      intro hmem
      rcases List.mem_map.mp hmem with ⟨q, hq, hfst⟩
      exact hnot (hfst ▸ List.mem_map_of_mem Prod.fst (mem_eraseA rest k q hq))

theorem lookupA_none_eraseA {α : Type} (l : List (String × α)) (k k' : String)
    (h : lookupA l k' = none) : lookupA (eraseA l k) k' = none := by
  induction l with
  | nil => simp [eraseA, lookupA]
  | cons p rest ih =>
    rw [lookupA] at h
    by_cases hk' : p.1 = k'
    · rw [if_pos hk'] at h
      exact absurd h (by simp)
    · rw [if_neg hk'] at h
      by_cases hk : p.1 = k
      · rw [eraseA, if_pos hk]
        exact h
      · rw [eraseA, if_neg hk, lookupA, if_neg hk']
        exact ih h

/-! ### WebSocket connection manager (`WebSocketConnectionManager`) -/

/-- One accepted WebSocket: `sendOk` models whether `send_json` on it
succeeds or raises. -/
structure Conn where
  id : Nat
  sendOk : Bool
deriving DecidableEq

/-- The `session_info[session_id]` dict. -/
structure SessInfo where
  gameId : String
  clientInfo : List (String × String)
  connectedAt : ℚ
deriving DecidableEq

/-- The `WebSocketMessageType` enum of `models.py` (note: it has no
timed-out member). -/
inductive MsgType
  | connectType
  | disconnectType
  | heartbeat
  | bossActionRequest
  | bossActionResponse
  | actionOutcome
  | learningUpdate
  | errorType
  | status
deriving DecidableEq

/-- A WebSocket message, reduced to the fields the claims observe. -/
structure Msg where
  mtype : MsgType
  reqId : Option String
deriving DecidableEq

/-- State of the connection manager, together with the log of
successfully transmitted messages (`sent` records each successful
`websocket.send_json`, in order). -/
structure ManagerState where
  active : List (String × Conn)
  gameSessions : List (String × List String)
  sessionInfo : List (String × SessInfo)
  sent : List (String × Msg)
deriving DecidableEq

/-- Model of `connect`: unconditionally stores the websocket under the
session id, adds the session to the game's set, and overwrites the
session info.  There is no duplicate check. -/
def connect (st : ManagerState) (ws : Conn) (sid gid : String)
    (cinfo : List (String × String)) (now : ℚ) : ManagerState :=
  { st with
    active := insertA st.active sid ws,
    gameSessions :=
      insertA st.gameSessions gid (addSet ((lookupA st.gameSessions gid).getD []) sid),
    sessionInfo := insertA st.sessionInfo sid ⟨gid, cinfo, now⟩ }

/-- Model of `disconnect`: no-op when the session is absent from
`active_connections`; otherwise remove it from the active map, discard it
from its game's set (dropping the set when it becomes empty, and doing
nothing when the recorded `game_id` is falsy or the set is missing), and
drop the session info. -/
def disconnect (st : ManagerState) (sid : String) : ManagerState :=
  match lookupA st.active sid with
  | none => st
  | some _ =>
    { st with
      active := eraseA st.active sid,
      gameSessions :=
        match lookupA st.sessionInfo sid with
        | none => st.gameSessions
        | some info =>
          if info.gameId = "" then st.gameSessions
          else
            match lookupA st.gameSessions info.gameId with
            | none => st.gameSessions
            | some grp =>
              if grp.erase sid = [] then eraseA st.gameSessions info.gameId
              else insertA st.gameSessions info.gameId (grp.erase sid),
      sessionInfo := eraseA st.sessionInfo sid }

/-- Model of `send_personal_message`: false when the session is not
registered; on a send failure the session is disconnected as a side
effect; on success the message is appended to the delivery log. -/
def sendPersonal (st : ManagerState) (msg : Msg) (sid : String) : ManagerState × Bool :=
  match lookupA st.active sid with
  | none => (st, false)
  | some ws =>
    if ws.sendOk then ({ st with sent := st.sent ++ [(sid, msg)] }, true)
    else (disconnect st sid, false)

/-- Model of `cleanup_inactive_sessions`: collect the sessions whose
`connected_at` is older than the timeout — the heartbeat-refreshed
liveness timestamp in the database is never consulted — then disconnect
each of them; returns the number collected. -/
def cleanupInactiveSessions (st : ManagerState) (now timeout : ℚ) : ManagerState × Nat :=
  ((((st.sessionInfo.filter (fun p => timeout < now - p.2.connectedAt)).map
      Prod.fst).foldl disconnect st),
    ((st.sessionInfo.filter (fun p => timeout < now - p.2.connectedAt)).map Prod.fst).length)

theorem disconnect_absent (st : ManagerState) (sid : String)
    (h : lookupA st.active sid = none) : disconnect st sid = st := by
  unfold disconnect
  rw [h]

theorem disconnect_present_active (st : ManagerState) (sid : String) (ws : Conn)
    (h : lookupA st.active sid = some ws) :
    (disconnect st sid).active = eraseA st.active sid := by
  unfold disconnect
  rw [h]

theorem disconnect_present_info (st : ManagerState) (sid : String) (ws : Conn)
    (h : lookupA st.active sid = some ws) :
    (disconnect st sid).sessionInfo = eraseA st.sessionInfo sid := by
  unfold disconnect
  rw [h]

theorem disconnect_active_none (st : ManagerState) (sid : String)
    (hnd : keysNodup st.active) : lookupA (disconnect st sid).active sid = none := by
  cases hl : lookupA st.active sid with
  | none =>
    rw [disconnect_absent st sid hl]
    exact hl
  | some ws =>
    rw [disconnect_present_active st sid ws hl]
    exact lookupA_eraseA_self _ _ hnd

theorem disconnect_active_mono (st : ManagerState) (s sid : String)
    (h : lookupA st.active sid = none) : lookupA (disconnect st s).active sid = none := by
  cases hl : lookupA st.active s with
  | none =>
    rw [disconnect_absent st s hl]
    exact h
  | some ws =>
    rw [disconnect_present_active st s ws hl]
    exact lookupA_none_eraseA _ _ _ h

theorem disconnect_active_other (st : ManagerState) (s sid : String) (h : s ≠ sid) :
    lookupA (disconnect st s).active sid = lookupA st.active sid := by
  cases hl : lookupA st.active s with
  | none => rw [disconnect_absent st s hl]
  | some ws =>
    rw [disconnect_present_active st s ws hl]
    exact lookupA_eraseA_ne _ _ _ h

theorem disconnect_keysNodup (st : ManagerState) (s : String)
    (hnd : keysNodup st.active) : keysNodup (disconnect st s).active := by
  cases hl : lookupA st.active s with
  | none =>
    rw [disconnect_absent st s hl]
    exact hnd
  | some ws =>
    rw [disconnect_present_active st s ws hl]
    exact keysNodup_eraseA _ _ hnd

theorem foldl_disconnect_none (l : List String) (st : ManagerState) (sid : String)
    (h : lookupA st.active sid = none) :
    lookupA (l.foldl disconnect st).active sid = none := by
  induction l generalizing st with
  | nil => exact h
  | cons s tl ih =>
    rw [List.foldl_cons]
    exact ih _ (disconnect_active_mono st s sid h)

theorem foldl_disconnect_removes (l : List String) (st : ManagerState) (sid : String)
    (hnd : keysNodup st.active) (hmem : sid ∈ l) :
    lookupA (l.foldl disconnect st).active sid = none := by
  induction l generalizing st with
  | nil => exact absurd hmem (List.not_mem_nil sid)
  | cons s tl ih =>
    rw [List.foldl_cons]
    by_cases hs : s = sid
    · subst hs
      exact foldl_disconnect_none tl _ s (disconnect_active_none st s hnd)
    · rcases List.mem_cons.mp hmem with h | h
      · exact absurd h.symm hs
      · exact ih _ (disconnect_keysNodup st s hnd) h

theorem foldl_disconnect_preserves (l : List String) (st : ManagerState) (sid : String)
    (hmem : sid ∉ l) :
    lookupA (l.foldl disconnect st).active sid = lookupA st.active sid := by
  induction l generalizing st with
  | nil => rfl
  | cons s tl ih =>
    rw [List.foldl_cons]
    have hs : s ≠ sid := fun he => hmem (he ▸ List.mem_cons_self _ _)
    rw [ih _ (fun h => hmem (List.mem_cons_of_mem _ h))]
    exact disconnect_active_other st s sid hs

theorem lookupA_of_mem_nodup {α : Type} (l : List (String × α)) (k : String) (v : α)
    (hnd : keysNodup l) (hmem : (k, v) ∈ l) : lookupA l k = some v := by
  induction l with
  | nil => exact absurd hmem (List.not_mem_nil _)
  | cons p rest ih =>
    rcases List.nodup_cons.mp hnd with ⟨hnot, hrest⟩
    rcases List.mem_cons.mp hmem with h | h
    · rw [← h, lookupA, if_pos rfl]
    · have hpk : ¬ p.1 = k := by
        intro he
        exact hnot (he ▸ List.mem_map_of_mem Prod.fst h)
      rw [lookupA, if_neg hpk]
      exact ih hrest h

theorem lookupA_some_mem {α : Type} (l : List (String × α)) (k : String) (v : α)
    (h : lookupA l k = some v) : (k, v) ∈ l := by
  induction l with
  | nil => exact absurd h (by simp [lookupA])
  | cons p rest ih =>
    rw [lookupA] at h
    by_cases hpk : p.1 = k
    · rw [if_pos hpk] at h
      rcases p with ⟨pk, pv⟩
      simp only at hpk
      subst hpk
      simp only [Option.some.injEq] at h
      subst h
      exact List.mem_cons_self _ _
    · rw [if_neg hpk] at h
      exact List.mem_cons_of_mem _ (ih h)

/-! ### Claim C9 -/

/-- C9 (confirmed): `disconnect` is a no-op on an absent session and never
errors; it is idempotent; and a single disconnect of a present session
removes it from the active map, from the session-info map, and from its
tenant group. -/
theorem disconnect_idempotent (st : ManagerState) (sid : String) :
    (lookupA st.active sid = none → disconnect st sid = st) ∧
    (keysNodup st.active → disconnect (disconnect st sid) sid = disconnect st sid) ∧
    (∀ ws info grp, keysNodup st.active → keysNodup st.sessionInfo →
      keysNodup st.gameSessions →
      lookupA st.active sid = some ws →
      lookupA st.sessionInfo sid = some info →
      info.gameId ≠ "" →
      lookupA st.gameSessions info.gameId = some grp →
      grp.Nodup →
      lookupA (disconnect st sid).active sid = none ∧
      lookupA (disconnect st sid).sessionInfo sid = none ∧
      ∀ g, lookupA (disconnect st sid).gameSessions info.gameId = some g → sid ∉ g) := by
  refine ⟨disconnect_absent st sid, ?_, ?_⟩
  · intro hnd
    exact disconnect_absent _ sid (disconnect_active_none st sid hnd)
  · intro ws info grp hnda hndi hndg hws hinfo hgid hgrp hgnd
    refine ⟨disconnect_active_none st sid hnda, ?_, ?_⟩
    · rw [disconnect_present_info st sid ws hws]
      exact lookupA_eraseA_self _ _ hndi
    · intro g hg
      have hgs : (disconnect st sid).gameSessions =
          (if grp.erase sid = [] then eraseA st.gameSessions info.gameId
           else insertA st.gameSessions info.gameId (grp.erase sid)) := by
        unfold disconnect
        rw [hws, hinfo]
        simp only
        rw [if_neg hgid, hgrp]
      rw [hgs] at hg
      by_cases hempty : grp.erase sid = []
      · rw [if_pos hempty] at hg
        rw [lookupA_eraseA_self _ _ hndg] at hg
        exact absurd hg (by simp)
      · rw [if_neg hempty] at hg
        rw [lookupA_insertA_self] at hg
        rcases Option.some.injEq _ _ ▸ hg with rfl
        exact hgnd.not_mem_erase

/-- Witness for C9 on a state built by a single `connect`. -/
theorem disconnect_idempotent_witness :
    disconnect (disconnect (connect ⟨[], [], [], []⟩ ⟨1, true⟩ "s1" "g" [] 0) "s1") "s1"
      = disconnect (connect ⟨[], [], [], []⟩ ⟨1, true⟩ "s1" "g" [] 0) "s1" ∧
    lookupA (disconnect (connect ⟨[], [], [], []⟩ ⟨1, true⟩ "s1" "g" [] 0) "s1").active "s1"
      = none := by
  constructor
  · exact (disconnect_idempotent (connect ⟨[], [], [], []⟩ ⟨1, true⟩ "s1" "g" [] 0) "s1").2.1
      (by decide)
  · exact ((disconnect_idempotent (connect ⟨[], [], [], []⟩ ⟨1, true⟩ "s1" "g" [] 0) "s1").2.2
      ⟨1, true⟩ ⟨"g", [], 0⟩ ["s1"] (by decide) (by decide) (by decide) (by decide)
      (by decide) (by decide) (by decide) (by decide)).1

/-! ### Claim C7 -/

theorem mem_addSet_self (l : List String) (s : String) : s ∈ addSet l s := by
  rw [addSet]
  by_cases h : s ∈ l
  · rw [if_pos h]
    exact h
  · rw [if_neg h]
    exact List.mem_append_right _ (List.mem_singleton.mpr rfl)

/-- C7 counterexample: connecting a second websocket under an
already-registered session id is not rejected — the global map now holds
the new websocket, the session info is overwritten to the new tenant, and
the old tenant group keeps a stale membership. -/
theorem connect_duplicate_counterexample :
    ¬ (lookupA (connect (connect ⟨[], [], [], []⟩ ⟨1, true⟩ "s1" "gameA" [] 0)
        ⟨2, true⟩ "s1" "gameB" [] 5).active "s1" = some ⟨1, true⟩) ∧
    lookupA (connect (connect ⟨[], [], [], []⟩ ⟨1, true⟩ "s1" "gameA" [] 0)
        ⟨2, true⟩ "s1" "gameB" [] 5).active "s1" = some ⟨2, true⟩ ∧
    lookupA (connect (connect ⟨[], [], [], []⟩ ⟨1, true⟩ "s1" "gameA" [] 0)
        ⟨2, true⟩ "s1" "gameB" [] 5).sessionInfo "s1" = some ⟨"gameB", [], 5⟩ ∧
    lookupA (connect (connect ⟨[], [], [], []⟩ ⟨1, true⟩ "s1" "gameA" [] 0)
        ⟨2, true⟩ "s1" "gameB" [] 5).gameSessions "gameA" = some ["s1"] := by
  decide

/-- C7 (corrected): `connect` performs no duplicate-session check and
never returns an error: it unconditionally registers the websocket under
the session id (overwriting any existing registration), overwrites the
session info, and adds the session to the target tenant group; a previous
registration under a different tenant is left as a stale membership in
the old group. -/
theorem connect_overwrites (st : ManagerState) (ws : Conn) (sid gid : String)
    (ci : List (String × String)) (now : ℚ) :
    lookupA (connect st ws sid gid ci now).active sid = some ws ∧
    lookupA (connect st ws sid gid ci now).sessionInfo sid = some ⟨gid, ci, now⟩ ∧
    ∃ grp, lookupA (connect st ws sid gid ci now).gameSessions gid = some grp ∧
      sid ∈ grp := by
  refine ⟨lookupA_insertA_self _ _ _, lookupA_insertA_self _ _ _, ?_⟩
  refine ⟨addSet ((lookupA st.gameSessions gid).getD []) sid, ?_, mem_addSet_self _ _⟩
  exact lookupA_insertA_self _ _ _

/-! ### Claim C6 -/

/-- Database row of `websocket_sessions`, reduced to the
heartbeat-refreshed liveness column. -/
structure DbSession where
  lastHeartbeat : ℚ
deriving DecidableEq

/-- Model of `_handle_heartbeat`: refresh `last_heartbeat` on the
database row (when the row exists) and send a heartbeat response to the
session.  The in-memory manager state the sweep reads is not touched. -/
def handleHeartbeat (mgr : ManagerState) (db : List (String × DbSession)) (sid : String)
    (now : ℚ) : ManagerState × List (String × DbSession) :=
  ((sendPersonal mgr ⟨.heartbeat, none⟩ sid).1,
    match lookupA db sid with
    | some _ => insertA db sid ⟨now⟩
    | none => db)

/-- C6 counterexample: a session connected at time 0 heartbeats at time
299 (refreshing its database liveness row), yet the sweep at time 301
with timeout 300 removes it, because the sweep compares against
`connected_at`, not the heartbeat timestamp. -/
theorem sweep_removes_heartbeating_session :
    lookupA (cleanupInactiveSessions
        (handleHeartbeat (connect ⟨[], [], [], []⟩ ⟨1, true⟩ "s1" "g1" [] 0)
          [("s1", ⟨0⟩)] "s1" 299).1
        301 300).1.active "s1" = none ∧
    (handleHeartbeat (connect ⟨[], [], [], []⟩ ⟨1, true⟩ "s1" "g1" [] 0)
        [("s1", ⟨0⟩)] "s1" 299).2 = [("s1", ⟨299⟩)] ∧
    (301 : ℚ) - 299 ≤ 300 := by
  refine ⟨by decide, by decide, by norm_num⟩

/-- C6 (corrected): the stale sweep removes exactly the sessions whose
`connected_at` is older than the timeout — regardless of heartbeats;
a heartbeat refreshes only the database row and leaves every input the
sweep reads unchanged (when the session's socket is healthy). -/
theorem sweep_by_connect_time (st : ManagerState) (now timeout : ℚ) (sid : String)
    (info : SessInfo) (hnda : keysNodup st.active) (hnds : keysNodup st.sessionInfo)
    (hinfo : lookupA st.sessionInfo sid = some info) :
    (timeout < now - info.connectedAt →
      lookupA (cleanupInactiveSessions st now timeout).1.active sid = none) ∧
    (¬ timeout < now - info.connectedAt →
      lookupA (cleanupInactiveSessions st now timeout).1.active sid
        = lookupA st.active sid) ∧
    (∀ (db : List (String × DbSession)) (c : Conn),
      lookupA st.active sid = some c → c.sendOk = true →
      (handleHeartbeat st db sid now).1.sessionInfo = st.sessionInfo ∧
      (handleHeartbeat st db sid now).1.active = st.active) := by
  refine ⟨?_, ?_, ?_⟩
  · intro hold
    apply foldl_disconnect_removes _ _ _ hnda
    apply List.mem_map.mpr
    refine ⟨(sid, info), ?_, rfl⟩
    apply List.mem_filter.mpr
    exact ⟨lookupA_some_mem _ _ _ hinfo, decide_eq_true hold⟩
  · intro hyoung
    apply foldl_disconnect_preserves
    intro hmem
    rcases List.mem_map.mp hmem with ⟨p, hp, hfst⟩
    rcases List.mem_filter.mp hp with ⟨hpl, hcond⟩
    have : lookupA st.sessionInfo p.1 = some p.2 := lookupA_of_mem_nodup _ _ _ hnds
      (by rcases p with ⟨a, b⟩; exact hpl)
    rw [hfst, hinfo] at this
    rcases Option.some.injEq _ _ ▸ this with rfl
    exact hyoung (of_decide_eq_true hcond)
  · intro db c hc hok
    unfold handleHeartbeat sendPersonal
    rw [hc]
    dsimp only
    rw [if_pos hok]
    exact ⟨rfl, rfl⟩

/-- Witness for C6: the sweep run in the counterexample state, with the
removal conclusion derived from the characterization theorem. -/
theorem sweep_by_connect_time_witness :
    lookupA (cleanupInactiveSessions
        (connect ⟨[], [], [], []⟩ ⟨1, true⟩ "s1" "g1" [] 0) 301 300).1.active "s1"
      = none := by
  exact (sweep_by_connect_time (connect ⟨[], [], [], []⟩ ⟨1, true⟩ "s1" "g1" [] 0)
      301 300 "s1" ⟨"g1", [], 0⟩ (by decide) (by decide) (by decide)).1 (by norm_num)

/-! ### Request coordination (`realtime_service.py`) — Claim C1 -/

/-- One `active_requests[request_id]` record. -/
structure ReqData where
  sessionId : String
  gameId : String
  startTime : ℚ
deriving DecidableEq

/-- Realtime service state: the manager plus the in-flight table. -/
structure RTState where
  mgr : ManagerState
  activeRequests : List (String × ReqData)
deriving DecidableEq

/-- Model of the in-flight part of `_cleanup_task`: remove the expired
requests (older than `realtime_action_timeout`); nothing is sent to any
session — there is no timed-out notification in the code. -/
def cleanupRequests (st : RTState) (now timeout : ℚ) : RTState :=
  { st with activeRequests :=
      ((st.activeRequests.filter (fun p => timeout < now - p.2.startTime)).map
        Prod.fst).foldl eraseA st.activeRequests }

/-- Model of the tail of `_generate_boss_action_async`: the in-flight
table is read only for the start-time metric, the response (or error)
message is sent to the session unconditionally — with no presence check —
and the entry is popped in the `finally` block. -/
def generateBossActionFinish (st : RTState) (reqId sid : String) (success : Bool) :
    RTState :=
  ⟨(sendPersonal st.mgr
      ⟨if success then .bossActionResponse else .errorType, some reqId⟩ sid).1,
    eraseA st.activeRequests reqId⟩

/-- Count of delivered messages to a session matching a predicate. -/
def countSent (st : ManagerState) (sid : String) (p : Msg → Bool) : Nat :=
  (st.sent.filter (fun e => e.1 = sid && p e.2)).length

/-- Manager and in-flight table for the C1 race: session `s1` live,
request `r1` submitted at time 0. -/
def c1St : RTState :=
  ⟨connect ⟨[], [], [], []⟩ ⟨1, true⟩ "s1" "g1" [] 0, [("r1", ⟨"s1", "g1", 0⟩)]⟩

/-- C1 counterexample: the sweep at time 20 (timeout 10) removes the
in-flight entry and sends nothing — in particular no timed-out
notification, a message type that does not exist — and the worker result
arriving afterwards is still delivered to the session (one send), where
the claim requires zero sends. -/
theorem late_result_counterexample :
    lookupA (cleanupRequests c1St 20 10).activeRequests "r1" = none ∧
    (cleanupRequests c1St 20 10).mgr.sent = c1St.mgr.sent ∧
    ¬ (countSent (generateBossActionFinish (cleanupRequests c1St 20 10) "r1" "s1" true).mgr
        "s1" (fun m => m.mtype = .bossActionResponse && m.reqId = some "r1") = 0) := by
  refine ⟨by decide, by decide, by decide⟩

/-- C1 (corrected): the deadline sweep silently removes expired in-flight
entries, changing nothing else (no notification of any kind is sent); the
worker completion path delivers its result to a live session exactly once
whether or not the in-flight entry is still present — the table is not
consulted before delivering — and then removes the entry. -/
theorem late_result_still_delivered (st : RTState) (now timeout : ℚ)
    (reqId sid : String) (c : Conn) (hs : lookupA st.mgr.active sid = some c)
    (hok : c.sendOk = true) :
    (cleanupRequests st now timeout).mgr = st.mgr ∧
    (generateBossActionFinish st reqId sid true).mgr.sent
      = st.mgr.sent ++ [(sid, ⟨.bossActionResponse, some reqId⟩)] ∧
    (generateBossActionFinish st reqId sid true).activeRequests
      = eraseA st.activeRequests reqId := by
  refine ⟨rfl, ?_, rfl⟩
  unfold generateBossActionFinish sendPersonal
  rw [hs]
  dsimp only
  rw [if_pos hok]
  rfl

/-- Witness for C1: the general delivery equations applied in the
counterexample state after the sweep. -/
theorem late_result_still_delivered_witness :
    (generateBossActionFinish (cleanupRequests c1St 20 10) "r1" "s1" true).mgr.sent
      = (cleanupRequests c1St 20 10).mgr.sent
        ++ [("s1", ⟨.bossActionResponse, some "r1"⟩)] := by
  exact (late_result_still_delivered (cleanupRequests c1St 20 10) 20 10 "r1" "s1"
    ⟨1, true⟩ (by decide) rfl).2.1

/-! ### Outcome reporting (`adaptive_boss_service.log_action_outcome`) — Claim C8 -/

/-- A `boss_actions` row, reduced to the columns the function touches. -/
structure DbAction where
  id : Nat
  gameId : Nat
  contextId : Nat
  effScore : Option ℚ
  outcomeVal : Option String
  damageDealt : Option ℚ
  playerHit : Option Bool
deriving DecidableEq

/-- A `game_contexts` row. -/
structure DbContext (P : Type) where
  id : Nat
  gameId : Nat
  usageCount : Nat
  avgEff : ℚ
  embedding : Option (List ℚ)
  playerContext : P
deriving DecidableEq

/-- The relational store, reduced to the tables the function reads. -/
structure Db (P : Type) where
  games : List (Nat × String)
  contexts : List (DbContext P)
  actions : List DbAction
deriving DecidableEq

/-- The `ActionOutcomeData` payload. -/
structure OutcomeData where
  actionId : Nat
  outcomeVal : String
  effScore : ℚ
  damageDealt : ℚ
  playerHit : Bool
deriving DecidableEq

/-- Actions of a context carrying a reported score, as read from the
flushed database state.  The session has `autoflush=False`, so the
queries inside `log_action_outcome` see the scores as they were before
this call's in-session assignment. -/
def scoredActions {P : Type} (db : Db P) (ctxId : Nat) : List DbAction :=
  db.actions.filter (fun a => a.contextId = ctxId && a.effScore.isSome)

/-- The commit at the end of `log_action_outcome`: flush the outcome
fields onto the action row. -/
def commitActions (actions : List DbAction) (oc : OutcomeData) : List DbAction :=
  actions.map (fun a =>
    if a.id = oc.actionId then
      { a with
          effScore := some oc.effScore
          outcomeVal := some oc.outcomeVal
          damageDealt := some oc.damageDealt
          playerHit := some oc.playerHit }
    else a)

/-- The context-average update of `log_action_outcome`: when the context
has previously flushed scored actions, set its `avg_effectiveness` to
their mean (the score being reported is not yet flushed and so not
included). -/
def ctxUpd {P : Type} (db : Db P) (ctx : DbContext P) : List (DbContext P) :=
  if (scoredActions db ctx.id).length ≠ 0 then
    db.contexts.map (fun c =>
      if c.id = ctx.id then
        { c with avgEff :=
            ((scoredActions db ctx.id).map (fun a => a.effScore.getD 0)).sum
              / ((scoredActions db ctx.id).length : ℚ) }
      else c)
  else db.contexts

/-- The FAISS update of `log_action_outcome`: when the new score is at
least `min_effectiveness_score = 0.3` and the context holds an embedding,
`add_context` is scheduled — an append of a fresh entry with the raw new
score (modelled as its eventual sequential effect). -/
def storeUpd {P : Type} (fs : Store P) (oc : OutcomeData) (ctx : DbContext P) : Store P :=
  if 3/10 ≤ oc.effScore then
    match ctx.embedding with
    | some v => (addContext fs ctx.id v ctx.playerContext oc.effScore).store
    | none => fs
  else fs

/-- Model of `log_action_outcome`: look up the action (error if absent)
and its game (error if absent); recompute the context's average over the
previously flushed scores (`autoflush=False` keeps the new score
invisible to the query); apply the FAISS append; finally commit the
action update.  `update_effectiveness_score` is never invoked. -/
def logActionOutcome {P : Type} (db : Db P) (fs : Store P) (oc : OutcomeData) :
    Except String (Db P × Store P) :=
  match db.actions.find? (fun a => a.id = oc.actionId) with
  | none => .error "Action not found"
  | some action =>
    match db.games.find? (fun g => g.1 = action.gameId) with
    | none => .error "Game not found"
    | some _ =>
      match db.contexts.find? (fun c => c.id = action.contextId) with
      | none => .ok (⟨db.games, db.contexts, commitActions db.actions oc⟩, fs)
      | some ctx =>
        .ok (⟨db.games, ctxUpd db ctx, commitActions db.actions oc⟩, storeUpd fs oc ctx)

theorem logActionOutcome_eq {P : Type} (db : Db P) (fs : Store P) (oc : OutcomeData)
    (action : DbAction) (g : Nat × String) (ctx : DbContext P)
    (hact : db.actions.find? (fun a => a.id = oc.actionId) = some action)
    (hg : db.games.find? (fun x => x.1 = action.gameId) = some g)
    (hctx : db.contexts.find? (fun c => c.id = action.contextId) = some ctx) :
    logActionOutcome db fs oc
      = .ok (⟨db.games, ctxUpd db ctx, commitActions db.actions oc⟩, storeUpd fs oc ctx) := by
  unfold logActionOutcome
  rw [hact]
  dsimp only
  rw [hg]
  dsimp only
  rw [hctx]

/-- Running mean as the claim states it: prior mean weighted by the prior
usage count.  (Stated from the spec, for comparison with what the code
computes.) -/
def specRunningMean (priorMean : ℚ) (usage : Nat) (newScore : ℚ) : ℚ :=
  (priorMean * usage + newScore) / (usage + 1)

/-- Database for the C8 counterexample: context 7 with usage count 3 and
stored average 1/2, one prior scored action and the action being
reported. -/
def c8Db : Db Unit :=
  ⟨[(1, "g")],
   [⟨7, 1, 3, 1/2, some [1, 0], ()⟩],
   [⟨10, 1, 7, some (1/2), some "success", some 1, some true⟩,
    ⟨11, 1, 7, none, none, none, none⟩]⟩

/-- FAISS store for the C8 counterexample: one entry for context 7. -/
def c8Fs : Store Unit := ⟨2, [([1, 0], ⟨7, (), 1/2, 0, qualityOf [1, 0]⟩)], 1⟩

/-- The reported outcome: score 9/10 on action 11. -/
def c8Oc : OutcomeData := ⟨11, "success", 9/10, 1, true⟩

/-- The state produced by the C8 call. -/
def c8Res : Db Unit × Store Unit := (logActionOutcome c8Db c8Fs c8Oc).toOption.getD (c8Db, c8Fs)

/-- C8 counterexample: reporting the outcome appends a second FAISS entry
for context 7 with the raw score — the store differs from the in-place
`update_effectiveness_score` to the running mean
`(1/2 * 3 + 9/10) / 4 = 3/5` that the claim asserts — the usage count
stays 3 instead of being incremented, and the stored average stays at the
mean of the previously flushed scores (1/2), not of all reported
scores. -/
theorem report_outcome_counterexample :
    c8Res.2.entries.length = 2 ∧
    ¬ (c8Res.2 = updateEffectivenessScore c8Fs 7 (specRunningMean (1/2) 3 (9/10))) ∧
    c8Res.1.contexts.map (fun c => (c.id, c.usageCount)) = [(7, 3)] ∧
    c8Res.1.contexts.map (fun c => c.avgEff) = [1/2] := by
  refine ⟨by decide, by decide, by decide, by decide⟩

/-- C8 (corrected): on an existing action whose game and context resolve,
`log_action_outcome` recomputes the context's stored average over the
previously flushed scores only, leaves every usage count unchanged, and —
when the new score is ≥ 0.3 and the context has an embedding — appends a
brand-new vector-store entry carrying the context id and the raw new
score (no in-place update); when the new score is below 0.3 the vector
store is untouched. -/
theorem report_outcome_appends {P : Type} (db : Db P) (fs : Store P) (oc : OutcomeData)
    (action : DbAction) (g : Nat × String) (ctx : DbContext P) (v : List ℚ)
    (hact : db.actions.find? (fun a => a.id = oc.actionId) = some action)
    (hg : db.games.find? (fun x => x.1 = action.gameId) = some g)
    (hctx : db.contexts.find? (fun c => c.id = action.contextId) = some ctx)
    (hemb : ctx.embedding = some v) (hdim : v.length = fs.dim) :
    ((3/10 ≤ oc.effScore →
        logActionOutcome db fs oc = .ok (⟨db.games, ctxUpd db ctx, commitActions db.actions oc⟩,
          { fs with
            entries := fs.entries
              ++ [(v, ⟨ctx.id, ctx.playerContext, oc.effScore, fs.entries.length,
                    qualityOf v⟩)],
            entryCount := fs.entryCount + 1 })) ∧
     (¬ 3/10 ≤ oc.effScore →
        logActionOutcome db fs oc
          = .ok (⟨db.games, ctxUpd db ctx, commitActions db.actions oc⟩, fs)) ∧
     (ctxUpd db ctx).map (fun c => (c.id, c.usageCount))
        = db.contexts.map (fun c => (c.id, c.usageCount))) := by
  have husage : (ctxUpd db ctx).map (fun c => (c.id, c.usageCount))
      = db.contexts.map (fun c => (c.id, c.usageCount)) := by
    rw [ctxUpd]
    by_cases hn : (scoredActions db ctx.id).length ≠ 0
    · rw [if_pos hn, List.map_map]
      apply List.map_congr_left
      intro c _
      by_cases hc : c.id = ctx.id
      · simp [hc]
      · simp [hc]
    · rw [if_neg hn]
  have hadd : addContext fs ctx.id v ctx.playerContext oc.effScore
      = ⟨{ fs with
            entries := fs.entries
              ++ [(v, ⟨ctx.id, ctx.playerContext, oc.effScore, fs.entries.length,
                    qualityOf v⟩)],
            entryCount := fs.entryCount + 1 },
          none, decide ((fs.entryCount + 1) % 100 = 0)⟩ := by
    rw [addContext, if_neg (fun h => h hdim)]
  refine ⟨?_, ?_, husage⟩
  · intro hsc
    rw [logActionOutcome_eq db fs oc action g ctx hact hg hctx]
    have hstore : storeUpd fs oc ctx
        = { fs with
            entries := fs.entries
              ++ [(v, ⟨ctx.id, ctx.playerContext, oc.effScore, fs.entries.length,
                    qualityOf v⟩)],
            entryCount := fs.entryCount + 1 } := by
      rw [storeUpd, if_pos hsc, hemb]
      dsimp only
      rw [hadd]
    rw [hstore]
  · intro hsc
    rw [logActionOutcome_eq db fs oc action g ctx hact hg hctx]
    have hstore : storeUpd fs oc ctx = fs := by
      rw [storeUpd, if_neg hsc]
    rw [hstore]

/-- Witness for C8: the general append equations applied to the
counterexample database. -/
theorem report_outcome_appends_witness :
    logActionOutcome c8Db c8Fs c8Oc = .ok (⟨c8Db.games, ctxUpd c8Db ⟨7, 1, 3, 1/2, some [1, 0], ()⟩,
        commitActions c8Db.actions c8Oc⟩,
      { c8Fs with
        entries := c8Fs.entries
          ++ [([1, 0], ⟨7, (), 9/10, c8Fs.entries.length, qualityOf [1, 0]⟩)],
        entryCount := c8Fs.entryCount + 1 }) ∧
    (ctxUpd c8Db ⟨7, 1, 3, 1/2, some [1, 0], ()⟩).map (fun c => (c.id, c.usageCount))
      = c8Db.contexts.map (fun c => (c.id, c.usageCount)) := by
  have h := report_outcome_appends c8Db c8Fs c8Oc
      ⟨11, 1, 7, none, none, none, none⟩ (1, "g") ⟨7, 1, 3, 1/2, some [1, 0], ()⟩ [1, 0]
      (by decide) (by decide) (by decide) (by decide) (by decide)
  exact ⟨h.1 (by decide), h.2.2⟩

/-! ### Action generation (`jigsawstack_service.py`) — Claim C10 -/

/-- JSON-ish values in the generator's response dict.  Values on which
Python `float()` succeeds are modelled as `num` carrying the exact value;
`str`, `strList` and `null` model values on which `float()` (or a string
field validation) raises. -/
inductive JVal
  | num (q : ℚ)
  | str (s : String)
  | strList (l : List String)
  | null
deriving DecidableEq

/-- Dict `get` with a default. -/
def getJ (rd : List (String × JVal)) (k : String) (d : JVal) : JVal := (lookupA rd k).getD d

/-- Model of `float(x)`. -/
def floatConv : JVal → Option ℚ
  | .num q => some q
  | _ => none

/-- Model of a required string field. -/
def strOf : JVal → Option String
  | .str s => some s
  | _ => none

/-- Model of an optional string field obtained via `.get(key)`. -/
def optStrOf : Option JVal → Option (Option String)
  | none => some none
  | some .null => some none
  | some (.str s) => some (some s)
  | some _ => none

/-- Model of `x = d.get(key)` followed by `if x is not None: x = float(x)`. -/
def optFloatOf : Option JVal → Option (Option ℚ)
  | none => some none
  | some .null => some none
  | some j => (floatConv j).map some

/-- Model of `d.get("damage_multiplier", 1.0)` followed by the same
conversion. -/
def dmgOf (rd : List (String × JVal)) : Option (Option ℚ) :=
  match lookupA rd "damage_multiplier" with
  | none => some (some 1)
  | some .null => some none
  | some j => (floatConv j).map some

/-- Model of the `isinstance(x, list)` guard on effect lists. -/
def sndListOf (rd : List (String × JVal)) (k : String) : List String :=
  match getJ rd k (.strList []) with
  | .strList l => l
  | _ => []

/-- Model of the reasoning concatenation (Python's truthiness skips empty
strings). -/
def combineReasoning (r a c : Option String) : Option String :=
  match ((r.toList.filter (fun s => s ≠ "")).map (fun s => "Decision: " ++ s))
      ++ ((a.toList.filter (fun s => s ≠ "")).map (fun s => "Adaptation: " ++ s))
      ++ ((c.toList.filter (fun s => s ≠ "")).map (fun s => "Counter-strategy: " ++ s)) with
  | [] => none
  | parts => some (String.intercalate " | " parts)

/-- The `BossActionResponse` pydantic model, reduced to its data. -/
structure BossActionResponse where
  bossAction : String
  actionType : String
  intensity : ℚ
  targetArea : Option String
  duration : Option ℚ
  cooldown : Option ℚ
  animationId : Option String
  soundEffects : List String
  visualEffects : List String
  damageMultiplier : Option ℚ
  successProbability : Option ℚ
  reasoning : Option String
deriving DecidableEq

/-- Player context, reduced to the fields the fallback consults. -/
structure PlayerContextData where
  dodgeFrequency : ℚ
  healthPercentage : ℚ
  recentDeaths : Nat
deriving DecidableEq

/-- Model of `_create_fallback_action`: high dodge frequency (when a
player context is available) gives an area attack at 0.6; low boss health
a desperate strike at 0.8; otherwise a basic attack at 0.5. -/
def createFallbackAction (pc : Option PlayerContextData) (bossHealth : ℚ)
    (_battlePhase : String) : BossActionResponse :=
  if (pc.map (fun p => decide (7/10 < p.dodgeFrequency))).getD false = true then
    ⟨"area_attack", "attack", 3/5, none, none, none, none, [], [], some 1, none,
      some "Fallback action due to API unavailability"⟩
  else if bossHealth < 3/10 then
    ⟨"desperate_strike", "attack", 4/5, none, none, none, none, [], [], some 1, none,
      some "Fallback action due to API unavailability"⟩
  else
    ⟨"basic_attack", "attack", 1/2, none, none, none, none, [], [], some 1, none,
      some "Fallback action due to API unavailability"⟩

/-- Body of the `try` block of `_parse_boss_action_response`: every
conversion that can raise is a bind; the intensity is clamped into
`[0, 1]` right after conversion. -/
def parseCore (rd : List (String × JVal)) : Option BossActionResponse := do
  let bossAction ← strOf (getJ rd "boss_action" (.str "basic attack"))
  let actionType ← strOf (getJ rd "action_type" (.str "attack"))
  let rawIntensity ← floatConv (getJ rd "intensity" (.num (1/2)))
  let targetArea ← optStrOf (lookupA rd "target_area")
  let duration ← optFloatOf (lookupA rd "duration")
  let cooldown ← optFloatOf (lookupA rd "cooldown")
  let animationId ← optStrOf (lookupA rd "animation_id")
  let damageMultiplier ← dmgOf rd
  let successProbability ← optFloatOf (lookupA rd "success_probability")
  let _ ← optFloatOf (lookupA rd "confidence_level")
  let adaptationReason ← optStrOf (lookupA rd "adaptation_reason")
  let counterStrategy ← optStrOf (lookupA rd "counter_strategy")
  let reasoning ← optStrOf (lookupA rd "reasoning")
  pure
    ⟨bossAction, actionType, max 0 (min 1 rawIntensity), targetArea, duration, cooldown,
      animationId, sndListOf rd "sound_effects", sndListOf rd "visual_effects",
      damageMultiplier, successProbability,
      combineReasoning reasoning adaptationReason counterStrategy⟩

/-- Model of `_parse_boss_action_response`: any exception in the body
falls back to `_create_fallback_action(None, 1.0, "unknown")`. -/
def parseBossActionResponse (rd : List (String × JVal)) : BossActionResponse :=
  match parseCore rd with
  | some r => r
  | none => createFallbackAction none 1 "unknown"

/-- Outcome of the external generator call: a 200 response body, or the
exhaustion of all retries / request errors / timeouts. -/
inductive ApiOutcome
  | success (rd : List (String × JVal))
  | failure
deriving DecidableEq

/-- Model of `generate_boss_action`: parse the API result, or substitute
the deterministic fallback when the call fails. -/
def generateBossAction (api : ApiOutcome) (pc : PlayerContextData) (bossHealth : ℚ)
    (battlePhase : String) : BossActionResponse :=
  match api with
  | .success rd => parseBossActionResponse rd
  | .failure => createFallbackAction (some pc) bossHealth battlePhase

theorem parseCore_intensity (rd : List (String × JVal)) (r : BossActionResponse)
    (h : parseCore rd = some r) : 0 ≤ r.intensity ∧ r.intensity ≤ 1 := by
  simp only [parseCore, Option.bind_eq_bind, Option.bind_eq_some, Option.pure_def,
    Option.some.injEq] at h
  obtain ⟨a1, h1, a2, h2, a3, h3, a4, h4, a5, h5, a6, h6, a7, h7, a8, h8, a9, h9,
    a10, h10, a11, h11, a12, h12, a13, h13, hr⟩ := h
  subst hr
  constructor
  · exact le_max_left 0 _
  · exact max_le (by norm_num) (min_le_left 1 _)

theorem fallback_intensity (pc : Option PlayerContextData) (bh : ℚ) (ph : String) :
    (createFallbackAction pc bh ph).intensity = 1/2 ∨
    (createFallbackAction pc bh ph).intensity = 3/5 ∨
    (createFallbackAction pc bh ph).intensity = 4/5 := by
  rw [createFallbackAction]
  split
  · exact Or.inr (Or.inl rfl)
  · split
    · exact Or.inr (Or.inr rfl)
    · exact Or.inl rfl

/-- C10 (confirmed): every response produced by `generate_boss_action`
has intensity within `[0, 1]` — parsed values are clamped into that range
— and every fallback path yields an intensity of exactly 0.5, 0.6 or
0.8. -/
theorem generate_intensity_bounds (api : ApiOutcome) (pc : PlayerContextData) (bh : ℚ)
    (ph : String) :
    (0 ≤ (generateBossAction api pc bh ph).intensity ∧
      (generateBossAction api pc bh ph).intensity ≤ 1) ∧
    ∀ (pc2 : Option PlayerContextData) (bh2 : ℚ) (ph2 : String),
      (createFallbackAction pc2 bh2 ph2).intensity = 1/2 ∨
      (createFallbackAction pc2 bh2 ph2).intensity = 3/5 ∨
      (createFallbackAction pc2 bh2 ph2).intensity = 4/5 := by
  refine ⟨?_, fun pc2 bh2 ph2 => fallback_intensity pc2 bh2 ph2⟩
  cases api with
  | success rd =>
    show 0 ≤ (parseBossActionResponse rd).intensity ∧ (parseBossActionResponse rd).intensity ≤ 1
    rw [parseBossActionResponse]
    cases hp : parseCore rd with
    | some r => exact parseCore_intensity rd r hp
    | none =>
      rcases fallback_intensity none 1 "unknown" with h | h | h <;> rw [h] <;> norm_num
  | failure =>
    show 0 ≤ (createFallbackAction (some pc) bh ph).intensity ∧
      (createFallbackAction (some pc) bh ph).intensity ≤ 1
    rcases fallback_intensity (some pc) bh ph with h | h | h <;> rw [h] <;> norm_num

/-- Witness for C5: on a store holding one effective and one ineffective
entry, the first invocation rebuilds and the second is the proved no-op. -/
theorem compact_second_invocation_noop_witness :
    (compactTwice (⟨2, [([1, 0], ⟨1, (), 1/2, 0, 0⟩), ([0, 1], ⟨2, (), 1/10, 1, 0⟩)], 2⟩
        : Store Unit) (1/5)).2.rebuilt = false ∧
    (compactTwice (⟨2, [([1, 0], ⟨1, (), 1/2, 0, 0⟩), ([0, 1], ⟨2, (), 1/10, 1, 0⟩)], 2⟩
        : Store Unit) (1/5)).1.rebuilt = true := by
  constructor
  · rw [(compact_second_invocation_noop (⟨2, [([1, 0], ⟨1, (), 1/2, 0, 0⟩),
      ([0, 1], ⟨2, (), 1/10, 1, 0⟩)], 2⟩ : Store Unit) (1/5)).1]
  · exact (compact_second_invocation_noop (⟨2, [([1, 0], ⟨1, (), 1/2, 0, 0⟩),
      ([0, 1], ⟨2, (), 1/10, 1, 0⟩)], 2⟩ : Store Unit) (1/5)).2.mpr
      ⟨([0, 1], ⟨2, (), 1/10, 1, 0⟩), by decide, by decide⟩

end AdaptiveLearn
